import Mathlib

/-!
Verification of the 2048 board engine in `src/src/components/Game2048.tsx`.

The board is a list of rows of natural numbers (`0` = empty cell), as in the
TypeScript `type Board = number[][]`.  The reference implementation fixes
`GRID_SIZE = 4`.  Imperative loops are rendered as structural recursions over
lists; each definition carries a note of the source lines it embeds.
-/

namespace Game2048

/-- Source: `const GRID_SIZE = 4;` (line 24). -/
def GRID_SIZE : Nat := 4

/-- A board, as in `type Board = number[][]` (line 10). -/
abbrev Board := List (List Nat)

/-- Cell access `board[i][j]`; out-of-range access is given the default `0`.
All theorems restrict to well-formed 4×4 boards, where the default is never
used. -/
def cell (b : Board) (i j : Nat) : Nat := (b.getD i []).getD j 0

/-- The well-formedness every board in the component satisfies: 4 rows of 4
cells (`GRID_SIZE = 4`). -/
def Shape4 (b : Board) : Prop := b.length = 4 ∧ ∀ r ∈ b, r.length = 4

instance (b : Board) : Decidable (Shape4 b) := by
  unfold Shape4; infer_instance

/-- Source: `row.filter(val => val !== 0)` (lines 83 and 96). -/
def filterNZ : List Nat → List Nat
  | [] => []
  | x :: t => if x = 0 then filterNZ t else x :: filterNZ t

/-- The merge loop of `moveLeft` (lines 85–94), carrying the current value of
`row[j]` (which a previous iteration may have zeroed) together with the yet
unvisited suffix `row[j+1..]`:
`if (row[j] === row[j+1]) { row[j] *= 2; row[j+1] = 0; }`. -/
def mergeStep : Nat → List Nat → List Nat
  | a, [] => [a]
  | a, b :: t => if a = b then (a + a) :: mergeStep 0 t else a :: mergeStep b t

/-- The state of `row` after the merge loop of lines 85–94 has run. -/
def mergeLoop : List Nat → List Nat
  | [] => []
  | a :: t => mergeStep a t

/-- The `scoreIncrease += row[j]` accumulation of line 88 (`row[j]` has just
been doubled, so each merge contributes the merged value `a + a`). -/
def scoreStep : Nat → List Nat → Nat
  | _, [] => 0
  | a, b :: t => if a = b then (a + a) + scoreStep 0 t else scoreStep b t

/-- Total score gained by the merge loop on one (already zero-filtered) row. -/
def scoreLoop : List Nat → Nat
  | [] => 0
  | a :: t => scoreStep a t

/-- The `if (row[j] === 2048 && !won) setWon(true)` check of lines 90–92:
whether some merge in the loop produced exactly 2048. -/
def hitStep : Nat → List Nat → Bool
  | _, [] => false
  | a, b :: t => if a = b then (a + a = 2048) || hitStep 0 t else hitStep b t

/-- Whether the merge loop on one (already zero-filtered) row produced a
2048 tile. -/
def hitLoop : List Nat → Bool
  | [] => false
  | a :: t => hitStep a t

/-- The `while (filteredRow.length < GRID_SIZE) filteredRow.push(0)` padding of
lines 97–99. -/
def padTo (n : Nat) (l : List Nat) : List Nat := l ++ List.replicate (n - l.length) 0

/-- One row of `moveLeft` (lines 83–99): filter zeros, run the merge loop,
filter the zeros the merges introduced, pad to `GRID_SIZE`. -/
def slideRowLeft (l : List Nat) : List Nat :=
  padTo GRID_SIZE (filterNZ (mergeLoop (filterNZ l)))

/-- Score gained on one row of `moveLeft` (line 88 accumulated). -/
def rowScore (l : List Nat) : Nat := scoreLoop (filterNZ l)

/-- The `newBoard` produced by `moveLeft` (rows processed independently,
lines 82–107). -/
def moveLeftBoard (b : Board) : Board := b.map slideRowLeft

/-- The `moved` detection of lines 101–106: cell-by-cell comparison of the old
row against the transformed row, over all `i, j < GRID_SIZE`. -/
def movedCheck (old new : Board) : Bool :=
  (List.range GRID_SIZE).any fun i =>
    (List.range GRID_SIZE).any fun j => !(cell old i j == cell new i j)

/-- The record `{ newBoard, scoreIncrease, moved }` returned by the move
functions (line 77). -/
structure MoveResult where
  newBoard : Board
  scoreIncrease : Nat
  moved : Bool
  deriving DecidableEq

/-- `moveLeft` (lines 77–110), minus the `setWon` side effect, which is
modelled separately by `wonAfterMove`. -/
def moveLeft (b : Board) : MoveResult :=
  { newBoard := moveLeftBoard b
    scoreIncrease := (b.map rowScore).sum
    moved := movedCheck b (moveLeftBoard b) }

/-- `moveRight` (lines 112–116): reverse each row, `moveLeft`, reverse back. -/
def moveRight (b : Board) : MoveResult :=
  let r := moveLeft (b.map List.reverse)
  { newBoard := r.newBoard.map List.reverse
    scoreIncrease := r.scoreIncrease
    moved := r.moved }

/-- `transpose` (lines 130–132):
`board[0].map((_, colIndex) => board.map(row => row[colIndex]))`. -/
def transposeB (b : Board) : Board :=
  (List.range (b.headD []).length).map fun j => b.map fun row => row.getD j 0

/-- `moveUp` (lines 118–122): transpose, `moveLeft`, transpose back. -/
def moveUp (b : Board) : MoveResult :=
  let r := moveLeft (transposeB b)
  { newBoard := transposeB r.newBoard
    scoreIncrease := r.scoreIncrease
    moved := r.moved }

/-- `moveDown` (lines 124–128): transpose, `moveRight`, transpose back. -/
def moveDown (b : Board) : MoveResult :=
  let r := moveRight (transposeB b)
  { newBoard := transposeB r.newBoard
    scoreIncrease := r.scoreIncrease
    moved := r.moved }

/-- The four directions handled by `handleMove` (line 158). -/
inductive Direction where
  | up | down | left | right
  deriving DecidableEq

/-- The dispatch of `handleMove` (lines 161–175): the engine call for one
direction.  This is the `applyMove` of the specification. -/
def applyMove : Direction → Board → MoveResult
  | .left, b => moveLeft b
  | .right, b => moveRight b
  | .up, b => moveUp b
  | .down, b => moveDown b

/-- `isGameOver` (lines 134–156): `false` on an empty cell, `false` on a cell
equal to its right or lower neighbour, `true` otherwise.  The two early-return
loops become two `all` conjuncts. -/
def isGameOver (b : Board) : Bool :=
  ((List.range GRID_SIZE).all fun i =>
    (List.range GRID_SIZE).all fun j => !(cell b i j == 0))
  && ((List.range GRID_SIZE).all fun i =>
    (List.range GRID_SIZE).all fun j =>
      !((decide (j < GRID_SIZE - 1) && (cell b i j == cell b i (j + 1)))
        || (decide (i < GRID_SIZE - 1) && (cell b i j == cell b (i + 1) j))))

/-- The row-major list of empty cells computed at lines 61–68 of
`addRandomTile`. -/
def emptyCellsOf (b : Board) : List (Nat × Nat) :=
  (List.range GRID_SIZE).flatMap fun i =>
    ((List.range GRID_SIZE).filter fun j => cell b i j == 0).map fun j => (i, j)

/-- `board[row][col] = v` as a functional update. -/
def setCell (b : Board) (i j v : Nat) : Board :=
  b.set i ((b.getD i []).set j v)

/-- `addRandomTile` (lines 60–75).  The two random draws are passed in
explicitly: `k` models `Math.floor(Math.random() * emptyCells.length)` (always
`< emptyCells.length`) and `isTwo` models `Math.random() < 0.9`. -/
def addRandomTile (b : Board) (k : Nat) (isTwo : Bool) : Board :=
  let e := emptyCellsOf b
  if 0 < e.length then
    let p := e.getD k (0, 0)
    setCell b p.1 p.2 (if isTwo then 2 else 4)
  else b

/-- The digit-prefix part of JavaScript `parseInt(s, 10)`: value of the
leading decimal digits, `none` (NaN) when there is no leading digit. -/
def digitsVal (cs : List Char) : Option Nat :=
  let ds := cs.takeWhile Char.isDigit
  if ds.isEmpty then none
  else some (ds.foldl (fun n c => n * 10 + (c.toNat - 48)) 0)

/-- JavaScript `parseInt(s)` in radix 10: skip leading whitespace, optional
sign, parse the leading digits; `none` models the `NaN` result. -/
def parseIntJS (s : String) : Option Int :=
  let cs := s.data.dropWhile fun c => (c == ' ') || (c == '\t') || (c == '\n') || (c == '\r')
  match cs with
  | '-' :: rest => (digitsVal rest).map fun n => -(n : Int)
  | '+' :: rest => (digitsVal rest).map fun n => (n : Int)
  | rest => (digitsVal rest).map fun n => (n : Int)

/-- The `highScore` initializer (lines 30–32):
`parseInt(localStorage.getItem('2048HighScore') || '0')`.  `stored = none`
models a missing key (`getItem` returns `null`); JavaScript `||` also replaces
the empty string (the only falsy string) by `'0'`. -/
def highScoreInit (stored : Option String) : Option Int :=
  parseIntJS (match stored with
    | none => "0"
    | some s => if s = "" then "0" else s)

/-- The net effect on the `won` flag of the `setWon(true)` calls inside
`moveLeft` (lines 90–92): the flag is raised exactly when some row's merge
loop produces a 2048 tile. -/
def wonAfterMoveLeft (b : Board) (won : Bool) : Bool :=
  won || b.any fun row => hitLoop (filterNZ row)

/-- The net effect on the `won` flag of one `handleMove` engine call: the
other three directions reach the lines 90–92 check through the row reversals
and transpositions of `moveRight`/`moveUp`/`moveDown`. -/
def wonAfterMove : Direction → Board → Bool → Bool
  | .left, b, w => wonAfterMoveLeft b w
  | .right, b, w => wonAfterMoveLeft (b.map List.reverse) w
  | .up, b, w => wonAfterMoveLeft (transposeB b) w
  | .down, b, w => wonAfterMoveLeft ((transposeB b).map List.reverse) w

/-- Sum of all tile values on a board. -/
def totalSum (b : Board) : Nat := (b.map List.sum).sum

/-- Column `j` of a board read top-to-bottom; `transposeB b` is exactly
`(List.range 4).map (colOf b)` on a well-formed board. -/
def colOf (b : Board) (j : Nat) : List Nat := b.map fun row => row.getD j 0

/-! ### Specification-side definitions

The following definitions are modelled from the specification's words, to be
compared against the source-derived definitions above (spec §4.1, steps 1–4
of the `applyMove` contract). -/

/-- Spec step 2, modelled from the spec: scan the dense sequence from the
leading edge; two adjacent equal values merge into one cell of double the
value, and the merged cell is not eligible to merge again (the scan resumes
after the pair). -/
def specMergePass : List Nat → List Nat
  | [] => []
  | [a] => [a]
  | a :: b :: t => if a = b then (a + a) :: specMergePass t else a :: specMergePass (b :: t)

/-- Spec step 2's score, modelled from the spec: each merge increments the
move's score delta by the merged value. -/
def specScorePass : List Nat → Nat
  | [] => 0
  | [_] => 0
  | a :: b :: t => if a = b then (a + a) + specScorePass t else specScorePass (b :: t)

/-- Spec steps 1–4, modelled from the spec: remove zeros (step 1), merge
(step 2), re-compact (step 3), pad with zeros at the trailing edge to length
`N = GRID_SIZE` (step 4). -/
def specLine (l : List Nat) : List Nat :=
  let dense := filterNZ l
  let merged := specMergePass dense
  let compacted := filterNZ merged
  compacted ++ List.replicate (GRID_SIZE - compacted.length) 0

/-- Line `i` of a board read from the leading edge of direction `d`, modelled
from the spec: for Left a row left-to-right, for Right a row right-to-left,
for Up a column top-to-bottom, for Down a column bottom-to-top. -/
def lineLE : Direction → Board → Nat → List Nat
  | .left, b, i => b.getD i []
  | .right, b, i => (b.getD i []).reverse
  | .up, b, i => colOf b i
  | .down, b, i => (colOf b i).reverse

/-- The spec's terminal-state condition for a further legal move (§4.2):
some cell is empty, or some cell equals an orthogonally (horizontally or
vertically, not diagonally) adjacent cell. -/
def specMovePossible (b : Board) : Prop :=
  (∃ i < 4, ∃ j < 4, cell b i j = 0)
  ∨ (∃ i < 4, ∃ j < 4, ∃ i' < 4, ∃ j' < 4,
      ((i = i' ∧ (j' = j + 1 ∨ j = j' + 1)) ∨ (j = j' ∧ (i' = i + 1 ∨ i = i' + 1)))
      ∧ cell b i j = cell b i' j')

/-! ### Row-level lemmas -/

theorem filterNZ_sum (l : List Nat) : (filterNZ l).sum = l.sum := by
  induction l with
  | nil => rfl
  | cons x t ih =>
    by_cases hx : x = 0 <;> simp [filterNZ, hx, ih]

theorem filterNZ_length_le (l : List Nat) : (filterNZ l).length ≤ l.length := by
  induction l with
  | nil => simp [filterNZ]
  | cons x t ih =>
    by_cases hx : x = 0 <;> simp [filterNZ, hx] <;> omega

theorem mem_filterNZ {x : Nat} {l : List Nat} : x ∈ filterNZ l ↔ x ∈ l ∧ x ≠ 0 := by
  induction l with
  | nil => simp [filterNZ]
  | cons y t ih =>
    by_cases hy : y = 0
    · subst hy
      rw [show filterNZ (0 :: t) = filterNZ t from by rw [filterNZ, if_pos rfl], ih]
      simp only [List.mem_cons]
      constructor
      · rintro ⟨h1, h2⟩; exact ⟨Or.inr h1, h2⟩
      · rintro ⟨h1 | h1, h2⟩
        · exact absurd h1 h2
        · exact ⟨h1, h2⟩
    · rw [show filterNZ (y :: t) = y :: filterNZ t from by rw [filterNZ, if_neg hy]]
      simp only [List.mem_cons, ih]
      constructor
      · rintro (rfl | ⟨h1, h2⟩)
        · exact ⟨Or.inl rfl, hy⟩
        · exact ⟨Or.inr h1, h2⟩
      · rintro ⟨rfl | h1, h2⟩
        · exact Or.inl rfl
        · exact Or.inr ⟨h1, h2⟩

theorem filterNZ_eq_self {l : List Nat} (h : ∀ x ∈ l, x ≠ 0) : filterNZ l = l := by
  induction l with
  | nil => rfl
  | cons x t ih =>
    rw [filterNZ, if_neg (h x (List.mem_cons_self x t))]
    exact congrArg _ (ih fun y hy => h y (List.mem_cons_of_mem x hy))

theorem filterNZ_idem (l : List Nat) : filterNZ (filterNZ l) = filterNZ l :=
  filterNZ_eq_self fun _ hx => (mem_filterNZ.mp hx).2

theorem filterNZ_append (l l' : List Nat) :
    filterNZ (l ++ l') = filterNZ l ++ filterNZ l' := by
  induction l with
  | nil => rfl
  | cons x t ih =>
    by_cases hx : x = 0 <;> simp [filterNZ, hx, ih]

theorem filterNZ_replicate_zero (n : Nat) : filterNZ (List.replicate n 0) = [] := by
  induction n with
  | zero => rfl
  | succ k ih => simp [List.replicate_succ, filterNZ, ih]

theorem mergeStep_length (a : Nat) (t : List Nat) :
    (mergeStep a t).length = t.length + 1 := by
  induction t generalizing a with
  | nil => rfl
  | cons b t ih =>
    by_cases hab : a = b <;> simp [mergeStep, hab, ih]

theorem mergeStep_sum (a : Nat) (t : List Nat) :
    (mergeStep a t).sum = a + t.sum := by
  induction t generalizing a with
  | nil => simp [mergeStep]
  | cons b t ih =>
    by_cases hab : a = b
    · subst hab; simp [mergeStep, ih]; omega
    · simp [mergeStep, hab, ih]

theorem mergeLoop_length (l : List Nat) : (mergeLoop l).length = l.length := by
  cases l with
  | nil => rfl
  | cons a t => exact mergeStep_length a t

theorem mergeLoop_sum (l : List Nat) : (mergeLoop l).sum = l.sum := by
  cases l with
  | nil => rfl
  | cons a t => exact mergeStep_sum a t

/-- The imperative merge loop, restricted to zero-free rows (the only rows it
ever sees), computes the specification's merge pass: the zero left behind by a
merge blocks any chain merge, exactly as the spec's "skip past the merged
pair" scan does. -/
theorem mergeStep_spec (t : List Nat) (ht : ∀ x ∈ t, x ≠ 0) :
    (filterNZ (mergeStep 0 t) = specMergePass t ∧ scoreStep 0 t = specScorePass t)
    ∧ ∀ a, a ≠ 0 →
        filterNZ (mergeStep a t) = specMergePass (a :: t)
        ∧ scoreStep a t = specScorePass (a :: t) := by
  induction t with
  | nil =>
    refine ⟨⟨rfl, rfl⟩, fun a ha => ⟨?_, rfl⟩⟩
    show filterNZ [a] = specMergePass [a]
    rw [filterNZ, if_neg ha]
    rfl
  | cons b t ih =>
    have hb : b ≠ 0 := ht b (List.mem_cons_self b t)
    have ht' : ∀ x ∈ t, x ≠ 0 := fun x hx => ht x (List.mem_cons_of_mem b hx)
    have ihb := (ih ht').2 b hb
    refine ⟨⟨?_, ?_⟩, fun a ha => ?_⟩
    · rw [mergeStep, if_neg (Ne.symm hb), filterNZ, if_pos rfl, ihb.1]
    · rw [scoreStep, if_neg (Ne.symm hb), ihb.2]
    · by_cases hab : a = b
      · subst hab
        have h2a : a + a ≠ 0 := by omega
        constructor
        · rw [mergeStep, if_pos rfl, filterNZ, if_neg h2a, (ih ht').1.1,
            specMergePass, if_pos rfl]
        · rw [scoreStep, if_pos rfl, (ih ht').1.2, specScorePass, if_pos rfl]
      · constructor
        · rw [mergeStep, if_neg hab, filterNZ, if_neg ha, ihb.1,
            specMergePass, if_neg hab]
        · rw [scoreStep, if_neg hab, ihb.2, specScorePass, if_neg hab]

theorem filterNZ_mergeLoop_spec (l : List Nat) :
    filterNZ (mergeLoop (filterNZ l)) = specMergePass (filterNZ l) := by
  rcases hd : filterNZ l with _ | ⟨a, t⟩
  · rfl
  · have hmem : ∀ x ∈ a :: t, x ≠ 0 := by
      intro x hx
      exact (mem_filterNZ.mp (hd ▸ hx)).2
    exact ((mergeStep_spec t fun x hx => hmem x (List.mem_cons_of_mem a hx)).2
      a (hmem a (List.mem_cons_self a t))).1

theorem scoreLoop_spec (l : List Nat) :
    scoreLoop (filterNZ l) = specScorePass (filterNZ l) := by
  rcases hd : filterNZ l with _ | ⟨a, t⟩
  · rfl
  · have hmem : ∀ x ∈ a :: t, x ≠ 0 := by
      intro x hx
      exact (mem_filterNZ.mp (hd ▸ hx)).2
    exact ((mergeStep_spec t fun x hx => hmem x (List.mem_cons_of_mem a hx)).2
      a (hmem a (List.mem_cons_self a t))).2

theorem filterNZ_specMergePass (l : List Nat) :
    filterNZ (specMergePass (filterNZ l)) = specMergePass (filterNZ l) := by
  rw [← filterNZ_mergeLoop_spec, filterNZ_idem, filterNZ_mergeLoop_spec]

/-- Per-row refinement: the source's row transformation is exactly the
spec's remove-zeros / merge / re-compact / pad pipeline. -/
theorem slideRowLeft_eq_specLine (l : List Nat) : slideRowLeft l = specLine l := by
  simp only [slideRowLeft, specLine, padTo, filterNZ_mergeLoop_spec,
    filterNZ_specMergePass]

/-- Per-row refinement for the score. -/
theorem rowScore_eq_spec (l : List Nat) :
    rowScore l = specScorePass (filterNZ l) := scoreLoop_spec l

theorem padTo_sum (n : Nat) (l : List Nat) : (padTo n l).sum = l.sum := by
  simp [padTo]

theorem slideRowLeft_sum (l : List Nat) : (slideRowLeft l).sum = l.sum := by
  rw [slideRowLeft, padTo_sum, filterNZ_sum, mergeLoop_sum, filterNZ_sum]

theorem padTo_length (n : Nat) (l : List Nat) (h : l.length ≤ n) :
    (padTo n l).length = n := by
  simp [padTo]; omega

theorem slideRowLeft_length (l : List Nat) (h : l.length ≤ 4) :
    (slideRowLeft l).length = 4 := by
  apply padTo_length
  calc (filterNZ (mergeLoop (filterNZ l))).length
      ≤ (mergeLoop (filterNZ l)).length := filterNZ_length_le _
    _ = (filterNZ l).length := mergeLoop_length _
    _ ≤ l.length := filterNZ_length_le _
    _ ≤ 4 := h

/-- If no two adjacent entries are equal, the merge loop fires no merge and
leaves the row unchanged. -/
theorem mergeStep_id (t : List Nat) : ∀ a, List.Chain' (· ≠ ·) (a :: t) →
    mergeStep a t = a :: t := by
  induction t with
  | nil => intro a _; rfl
  | cons b t ih =>
    intro a h
    rw [List.chain'_cons] at h
    rw [mergeStep, if_neg h.1, ih b h.2]

/-- On a zero-free row, a zero merge-score means no merge fired, so the loop
is the identity. -/
theorem mergeStep_id_of_score (t : List Nat) : ∀ a, a ≠ 0 → (∀ x ∈ t, x ≠ 0) →
    scoreStep a t = 0 → mergeStep a t = a :: t := by
  induction t with
  | nil => intro a _ _ _; rfl
  | cons b t ih =>
    intro a ha ht hs
    by_cases hab : a = b
    · rw [scoreStep, if_pos hab] at hs
      omega
    · rw [scoreStep, if_neg hab] at hs
      rw [mergeStep, if_neg hab,
        ih b (ht b (List.mem_cons_self b t)) (fun x hx => ht x (List.mem_cons_of_mem b hx)) hs]

/-- A fully occupied row with no two adjacent equal cells is fixed by the row
transformation. -/
theorem slideRowLeft_id_of_terminal (l : List Nat) (hlen : l.length = 4)
    (h0 : ∀ x ∈ l, x ≠ 0) (hch : List.Chain' (· ≠ ·) l) : slideRowLeft l = l := by
  rw [slideRowLeft, filterNZ_eq_self h0]
  have hml : mergeLoop l = l := by
    cases l with
    | nil => rfl
    | cons a t => exact mergeStep_id t a hch
  rw [hml, filterNZ_eq_self h0, padTo, hlen]
  simp [GRID_SIZE]

/-- A row already produced by the row transformation, on which a second pass
gains no score, is fixed by that second pass: compaction is idempotent, and
only merges can change a compacted row. -/
theorem slideRowLeft_id_of_output (l : List Nat)
    (hs : rowScore (slideRowLeft l) = 0) :
    slideRowLeft (slideRowLeft l) = slideRowLeft l := by
  have hd0 : ∀ x ∈ filterNZ (mergeLoop (filterNZ l)), x ≠ 0 :=
    fun x hx => (mem_filterNZ.mp hx).2
  have hfil : filterNZ (slideRowLeft l) = filterNZ (mergeLoop (filterNZ l)) := by
    rw [slideRowLeft, padTo, filterNZ_append, filterNZ_replicate_zero,
      List.append_nil, filterNZ_idem]
  rw [rowScore, hfil] at hs
  have hml : mergeLoop (filterNZ (mergeLoop (filterNZ l)))
      = filterNZ (mergeLoop (filterNZ l)) := by
    rcases hd : filterNZ (mergeLoop (filterNZ l)) with _ | ⟨a, t⟩
    · rfl
    · rw [hd] at hs hd0
      exact mergeStep_id_of_score t a (hd0 a (List.mem_cons_self a t))
        (fun x hx => hd0 x (List.mem_cons_of_mem a hx)) hs
  conv_lhs => rw [slideRowLeft, hfil, hml, filterNZ_eq_self hd0]
  rw [slideRowLeft]

/-! ### Board-level access and shape lemmas -/

theorem getD_map_lt {α β : Type} (f : α → β) (l : List α) (i : Nat)
    (h : i < l.length) (d : β) (d' : α) : (l.map f).getD i d = f (l.getD i d') := by
  rw [List.getD_eq_getElem _ _ (by simpa using h), List.getD_eq_getElem _ _ h,
    List.getElem_map]

theorem mem_iff_getD {α : Type} {x : α} {l : List α} (d : α) :
    x ∈ l ↔ ∃ i, i < l.length ∧ l.getD i d = x := by
  rw [List.mem_iff_getElem]
  constructor
  · rintro ⟨i, h, rfl⟩
    exact ⟨i, h, List.getD_eq_getElem _ _ h⟩
  · rintro ⟨i, h, rfl⟩
    exact ⟨i, h, (List.getD_eq_getElem _ _ h).symm⟩

theorem list_ext4 {α : Type} (d : α) {l l' : List α} (h : l.length = 4)
    (h' : l'.length = 4) (he : ∀ i < 4, l.getD i d = l'.getD i d) : l = l' := by
  refine List.ext_getElem (by omega) fun i h1 h2 => ?_
  rw [← List.getD_eq_getElem _ d h1, ← List.getD_eq_getElem _ d h2]
  exact he i (by omega)

theorem len4_destruct {α : Type} (l : List α) (h : l.length = 4) :
    ∃ a b c d, l = [a, b, c, d] := by
  cases l with
  | nil => simp at h
  | cons a t =>
    cases t with
    | nil => simp at h
    | cons b t =>
      cases t with
      | nil => simp at h
      | cons c t =>
        cases t with
        | nil => simp at h
        | cons d t =>
          cases t with
          | nil => exact ⟨a, b, c, d, rfl⟩
          | cons e t => simp only [List.length_cons] at h; omega

theorem getD_len4 (l : List Nat) (h : l.length = 4) :
    [l.getD 0 0, l.getD 1 0, l.getD 2 0, l.getD 3 0] = l := by
  obtain ⟨a, b, c, d, rfl⟩ := len4_destruct l h
  rfl

theorem getD_mem {α : Type} {l : List α} {i : Nat} (h : i < l.length) (d : α) :
    l.getD i d ∈ l := by
  rw [List.getD_eq_getElem _ _ h]
  exact List.getElem_mem h

theorem shape4_row {b : Board} (hb : Shape4 b) {i : Nat} (hi : i < 4) :
    (b.getD i []).length = 4 :=
  hb.2 _ (getD_mem (by rw [hb.1]; exact hi) [])

theorem shape4_moveLeftBoard {b : Board} (hb : Shape4 b) :
    Shape4 (moveLeftBoard b) := by
  refine ⟨by simpa [moveLeftBoard] using hb.1, fun r hr => ?_⟩
  rw [moveLeftBoard] at hr
  obtain ⟨s, hs, rfl⟩ := List.mem_map.mp hr
  exact slideRowLeft_length s (by rw [hb.2 s hs])

theorem shape4_map_reverse {b : Board} (hb : Shape4 b) :
    Shape4 (b.map List.reverse) := by
  refine ⟨by simpa using hb.1, fun r hr => ?_⟩
  obtain ⟨s, hs, rfl⟩ := List.mem_map.mp hr
  simpa using hb.2 s hs

theorem headD_length {b : Board} (hb : Shape4 b) : (b.headD []).length = 4 := by
  cases b with
  | nil => exact absurd hb.1 (by simp)
  | cons r t => exact hb.2 r (List.mem_cons_self r t)

theorem transposeB_eq_cols {b : Board} (hb : Shape4 b) :
    transposeB b = [colOf b 0, colOf b 1, colOf b 2, colOf b 3] := by
  rw [transposeB, headD_length hb]
  rfl

theorem shape4_transposeB {b : Board} (hb : Shape4 b) :
    Shape4 (transposeB b) := by
  rw [transposeB_eq_cols hb]
  refine ⟨rfl, fun r hr => ?_⟩
  simp only [List.mem_cons, List.not_mem_nil, or_false] at hr
  rcases hr with rfl | rfl | rfl | rfl <;> simpa [colOf] using hb.1

theorem colOf_getD {b : Board} {i : Nat} (hi : i < b.length) (j : Nat) :
    (colOf b j).getD i 0 = cell b i j := by
  rw [colOf, getD_map_lt _ _ _ hi 0 []]
  rfl

theorem transposeB_getD {b : Board} (hb : Shape4 b) {i : Nat} (hi : i < 4) :
    (transposeB b).getD i [] = colOf b i := by
  rw [transposeB_eq_cols hb]
  interval_cases i <;> rfl

theorem cell_transposeB {b : Board} (hb : Shape4 b) {i j : Nat} (hi : i < 4)
    (hj : j < 4) : cell (transposeB b) i j = cell b j i := by
  rw [cell, transposeB_getD hb hi, colOf_getD (by rw [hb.1]; exact hj)]

theorem colOf_transposeB {b : Board} (hb : Shape4 b) {i : Nat} (hi : i < 4) :
    colOf (transposeB b) i = b.getD i [] := by
  have ht := shape4_transposeB hb
  refine list_ext4 0 (by simpa [colOf] using ht.1) (shape4_row hb hi) fun j hj => ?_
  rw [colOf_getD (by rw [ht.1]; exact hj)]
  rw [show cell (transposeB b) j i = cell b i j from cell_transposeB hb hj hi]
  rfl

theorem transposeB_transposeB {b : Board} (hb : Shape4 b) :
    transposeB (transposeB b) = b := by
  have ht := shape4_transposeB hb
  refine list_ext4 [] (shape4_transposeB ht).1 hb.1 fun i hi => ?_
  rw [transposeB_getD ht hi, colOf_transposeB hb hi]

theorem shape4_elim16 (b : Board) (hb : Shape4 b) :
    ∃ a00 a01 a02 a03 a10 a11 a12 a13 a20 a21 a22 a23 a30 a31 a32 a33 : Nat,
      b = [[a00, a01, a02, a03], [a10, a11, a12, a13],
           [a20, a21, a22, a23], [a30, a31, a32, a33]] := by
  obtain ⟨r0, r1, r2, r3, rfl⟩ := len4_destruct b hb.1
  obtain ⟨a00, a01, a02, a03, rfl⟩ := len4_destruct r0 (hb.2 r0 (by simp))
  obtain ⟨a10, a11, a12, a13, rfl⟩ := len4_destruct r1 (hb.2 r1 (by simp))
  obtain ⟨a20, a21, a22, a23, rfl⟩ := len4_destruct r2 (hb.2 r2 (by simp))
  obtain ⟨a30, a31, a32, a33, rfl⟩ := len4_destruct r3 (hb.2 r3 (by simp))
  exact ⟨_, _, _, _, _, _, _, _, _, _, _, _, _, _, _, _, rfl⟩

theorem totalSum_transposeB {b : Board} (hb : Shape4 b) :
    totalSum (transposeB b) = totalSum b := by
  obtain ⟨a00, a01, a02, a03, a10, a11, a12, a13, a20, a21, a22, a23,
    a30, a31, a32, a33, rfl⟩ := shape4_elim16 b hb
  show totalSum [[a00, a10, a20, a30], [a01, a11, a21, a31],
    [a02, a12, a22, a32], [a03, a13, a23, a33]] = _
  simp [totalSum]
  omega

theorem totalSum_map_reverse (b : Board) :
    totalSum (b.map List.reverse) = totalSum b := by
  rw [totalSum, totalSum, List.map_map]
  congr 1
  exact List.map_congr_left fun r _ => List.sum_reverse r

theorem totalSum_moveLeftBoard (b : Board) :
    totalSum (moveLeftBoard b) = totalSum b := by
  rw [totalSum, totalSum, moveLeftBoard, List.map_map]
  congr 1
  exact List.map_congr_left fun r _ => slideRowLeft_sum r

theorem map_reverse_reverse (b : Board) :
    (b.map List.reverse).map List.reverse = b := by
  rw [List.map_map]
  have : (List.reverse ∘ List.reverse : List Nat → List Nat) = id := by
    funext l; simp
  rw [this, List.map_id]

/-! ### The `moved` flag and the game-over test as propositions -/

theorem board_ext {b b' : Board} (hb : Shape4 b) (hb' : Shape4 b')
    (h : ∀ i < 4, ∀ j < 4, cell b i j = cell b' i j) : b = b' :=
  list_ext4 [] hb.1 hb'.1 fun i hi =>
    list_ext4 0 (shape4_row hb hi) (shape4_row hb' hi) fun j hj => h i hi j hj

theorem movedCheck_cells {old new : Board} :
    movedCheck old new = false ↔ ∀ i < 4, ∀ j < 4, cell old i j = cell new i j := by
  simp [movedCheck, List.any_eq_true, List.mem_range, GRID_SIZE]

theorem movedCheck_self (b : Board) : movedCheck b b = false := by
  simp [movedCheck]

theorem movedCheck_false_iff_eq {old new : Board} (ho : Shape4 old)
    (hn : Shape4 new) : movedCheck old new = false ↔ old = new := by
  rw [movedCheck_cells]
  constructor
  · exact fun h => board_ext ho hn h
  · rintro rfl
    exact fun i _ j _ => rfl

theorem isGameOver_iff (b : Board) :
    isGameOver b = true ↔
      (∀ i < 4, ∀ j < 4, cell b i j ≠ 0) ∧
      (∀ i < 4, ∀ j < 4,
        (j < 3 → cell b i j ≠ cell b i (j + 1))
        ∧ (i < 3 → cell b i j ≠ cell b (i + 1) j)) := by
  simp only [isGameOver, GRID_SIZE, Bool.and_eq_true, List.all_eq_true, List.mem_range,
    Bool.not_eq_true', beq_eq_false_iff_ne, ne_eq, Bool.or_eq_false_iff,
    Bool.and_eq_false_iff, decide_eq_false_iff_not, not_lt, beq_eq_false_iff_ne]
  constructor
  · rintro ⟨h1, h2⟩
    refine ⟨h1, fun i hi j hj => ⟨fun hj3 h => ?_, fun hi3 h => ?_⟩⟩
    · rcases (h2 i hi j hj).1 with h3 | hne
      · omega
      · exact hne h
    · rcases (h2 i hi j hj).2 with h3 | hne
      · omega
      · exact hne h
  · rintro ⟨h1, h2⟩
    refine ⟨h1, fun i hi j hj => ⟨?_, ?_⟩⟩
    · by_cases hj3 : j < 3
      · exact Or.inr ((h2 i hi j hj).1 hj3)
      · exact Or.inl (by omega)
    · by_cases hi3 : i < 3
      · exact Or.inr ((h2 i hi j hj).2 hi3)
      · exact Or.inl (by omega)

/-! ### Per-direction line decomposition -/

theorem moveLeftBoard_getD {b : Board} (hb : Shape4 b) {i : Nat} (hi : i < 4) :
    (moveLeftBoard b).getD i [] = slideRowLeft (b.getD i []) := by
  rw [moveLeftBoard]
  exact getD_map_lt _ _ _ (by rw [hb.1]; exact hi) [] []

theorem getD_map_reverse {b : Board} (hb : Shape4 b) {i : Nat} (hi : i < 4) :
    (b.map List.reverse).getD i [] = (b.getD i []).reverse := by
  exact getD_map_lt _ _ _ (by rw [hb.1]; exact hi) [] []

theorem mapRowScore_spec {b : Board} (hb : Shape4 b) :
    (b.map rowScore).sum
      = ((List.range 4).map fun i => specScorePass (filterNZ (b.getD i []))).sum := by
  obtain ⟨r0, r1, r2, r3, rfl⟩ := len4_destruct b hb.1
  rw [show List.range 4 = [0, 1, 2, 3] from rfl]
  simp [rowScore_eq_spec]

theorem lines_spec_left {b : Board} (hb : Shape4 b) :
    (∀ i < 4, lineLE .left (applyMove .left b).newBoard i = specLine (lineLE .left b i))
    ∧ (applyMove .left b).scoreIncrease
      = ((List.range 4).map fun i => specScorePass (filterNZ (lineLE .left b i))).sum := by
  constructor
  · intro i hi
    show (moveLeftBoard b).getD i [] = specLine (b.getD i [])
    rw [moveLeftBoard_getD hb hi, slideRowLeft_eq_specLine]
  · show (b.map rowScore).sum = _
    rw [mapRowScore_spec hb]
    rfl

theorem lines_spec_right {b : Board} (hb : Shape4 b) :
    (∀ i < 4, lineLE .right (applyMove .right b).newBoard i = specLine (lineLE .right b i))
    ∧ (applyMove .right b).scoreIncrease
      = ((List.range 4).map fun i => specScorePass (filterNZ (lineLE .right b i))).sum := by
  have hrev : Shape4 (b.map List.reverse) := shape4_map_reverse hb
  have hmv : Shape4 (moveLeftBoard (b.map List.reverse)) := shape4_moveLeftBoard hrev
  constructor
  · intro i hi
    show (((moveLeftBoard (b.map List.reverse)).map List.reverse).getD i []).reverse
        = specLine ((b.getD i []).reverse)
    rw [getD_map_reverse hmv hi, List.reverse_reverse, moveLeftBoard_getD hrev hi,
      getD_map_reverse hb hi, slideRowLeft_eq_specLine]
  · show ((b.map List.reverse).map rowScore).sum = _
    rw [mapRowScore_spec hrev]
    congr 1
    refine List.map_congr_left fun i hi => ?_
    rw [List.mem_range] at hi
    rw [getD_map_reverse hb hi]
    rfl

theorem lines_spec_up {b : Board} (hb : Shape4 b) :
    (∀ i < 4, lineLE .up (applyMove .up b).newBoard i = specLine (lineLE .up b i))
    ∧ (applyMove .up b).scoreIncrease
      = ((List.range 4).map fun i => specScorePass (filterNZ (lineLE .up b i))).sum := by
  have htb : Shape4 (transposeB b) := shape4_transposeB hb
  have hX : Shape4 (moveLeftBoard (transposeB b)) := shape4_moveLeftBoard htb
  constructor
  · intro i hi
    show colOf (transposeB (moveLeftBoard (transposeB b))) i = specLine (colOf b i)
    rw [colOf_transposeB hX hi, moveLeftBoard_getD htb hi, transposeB_getD hb hi,
      slideRowLeft_eq_specLine]
  · show ((transposeB b).map rowScore).sum = _
    rw [mapRowScore_spec htb]
    congr 1
    refine List.map_congr_left fun i hi => ?_
    rw [List.mem_range] at hi
    rw [transposeB_getD hb hi]
    rfl

theorem lines_spec_down {b : Board} (hb : Shape4 b) :
    (∀ i < 4, lineLE .down (applyMove .down b).newBoard i = specLine (lineLE .down b i))
    ∧ (applyMove .down b).scoreIncrease
      = ((List.range 4).map fun i => specScorePass (filterNZ (lineLE .down b i))).sum := by
  have htb : Shape4 (transposeB b) := shape4_transposeB hb
  have hrev : Shape4 ((transposeB b).map List.reverse) := shape4_map_reverse htb
  have hmv : Shape4 (moveLeftBoard ((transposeB b).map List.reverse)) :=
    shape4_moveLeftBoard hrev
  have hY : Shape4 ((moveLeftBoard ((transposeB b).map List.reverse)).map List.reverse) :=
    shape4_map_reverse hmv
  constructor
  · intro i hi
    show (colOf (transposeB
        ((moveLeftBoard ((transposeB b).map List.reverse)).map List.reverse)) i).reverse
        = specLine ((colOf b i).reverse)
    rw [colOf_transposeB hY hi, getD_map_reverse hmv hi, List.reverse_reverse,
      moveLeftBoard_getD hrev hi, getD_map_reverse htb hi, transposeB_getD hb hi,
      slideRowLeft_eq_specLine]
  · show (((transposeB b).map List.reverse).map rowScore).sum = _
    rw [mapRowScore_spec hrev]
    congr 1
    refine List.map_congr_left fun i hi => ?_
    rw [List.mem_range] at hi
    rw [getD_map_reverse htb hi, transposeB_getD hb hi]
    rfl

/-! ### Second-move and terminal-board fixed points -/

theorem rows_are_outputs (X : Board) : ∀ r ∈ moveLeftBoard X, ∃ l, r = slideRowLeft l := by
  intro r hr
  obtain ⟨s, _, rfl⟩ := List.mem_map.mp hr
  exact ⟨s, rfl⟩

theorem moveLeftBoard_fixed_of_outputs {Y : Board}
    (hY : ∀ r ∈ Y, ∃ l, r = slideRowLeft l)
    (hs : (Y.map rowScore).sum = 0) : moveLeftBoard Y = Y := by
  have hfix : ∀ r ∈ Y, slideRowLeft r = r := by
    intro r hr
    obtain ⟨l, rfl⟩ := hY r hr
    exact slideRowLeft_id_of_output l
      (List.sum_eq_zero_iff.mp hs _ (List.mem_map_of_mem rowScore hr))
  rw [moveLeftBoard]
  calc Y.map slideRowLeft = Y.map id := List.map_congr_left hfix
    _ = Y := List.map_id Y

theorem moveLeftBoard_id_of_rows {X : Board}
    (h : ∀ r ∈ X, slideRowLeft r = r) : moveLeftBoard X = X := by
  rw [moveLeftBoard]
  calc X.map slideRowLeft = X.map id := List.map_congr_left h
    _ = X := List.map_id X

theorem slideRowLeft_id_of_terminal_reverse (l : List Nat) (hlen : l.length = 4)
    (h0 : ∀ x ∈ l, x ≠ 0) (hch : List.Chain' (· ≠ ·) l) :
    slideRowLeft l.reverse = l.reverse :=
  slideRowLeft_id_of_terminal _ (by simpa using hlen)
    (fun x hx => h0 x (List.mem_reverse.mp hx))
    (List.chain'_reverse.mpr (hch.imp fun _ _ h => h.symm))

/-- On a game-over board, every row and every column is fully occupied with no
two adjacent equal cells. -/
theorem terminal_rows {b : Board} (hb : Shape4 b) (hg : isGameOver b = true) :
    (∀ i < 4, (∀ x ∈ b.getD i [], x ≠ 0) ∧ List.Chain' (· ≠ ·) (b.getD i []))
    ∧ (∀ i < 4, (∀ x ∈ colOf b i, x ≠ 0) ∧ List.Chain' (· ≠ ·) (colOf b i)) := by
  obtain ⟨h1, h2⟩ := (isGameOver_iff b).mp hg
  constructor
  · intro i hi
    constructor
    · intro x hx
      obtain ⟨j, hjl, hjeq⟩ := (mem_iff_getD 0).mp hx
      rw [shape4_row hb hi] at hjl
      exact hjeq ▸ h1 i hi j hjl
    · rw [List.chain'_iff_get]
      intro k hk
      rw [shape4_row hb hi] at hk
      intro heq
      apply (h2 i hi k (by omega)).1 (by omega)
      have e1 : cell b i k = (b.getD i []).get ⟨k, by rw [shape4_row hb hi]; omega⟩ := by
        rw [cell, List.getD_eq_getElem _ _ (by rw [shape4_row hb hi]; omega)]
        simp [List.get_eq_getElem]
      have e2 : cell b i (k + 1) = (b.getD i []).get ⟨k + 1, by rw [shape4_row hb hi]; omega⟩ := by
        rw [cell, List.getD_eq_getElem _ _ (by rw [shape4_row hb hi]; omega)]
        simp [List.get_eq_getElem]
      rw [e1, e2]
      exact heq
  · intro i hi
    have hlen : (colOf b i).length = b.length := by simp [colOf]
    constructor
    · intro x hx
      obtain ⟨k, hkl, hkeq⟩ := (mem_iff_getD 0).mp hx
      rw [hlen, hb.1] at hkl
      rw [colOf_getD (by rw [hb.1]; exact hkl)] at hkeq
      exact hkeq ▸ h1 k hkl i hi
    · rw [List.chain'_iff_get]
      intro k hk
      rw [hlen, hb.1] at hk
      intro heq
      apply (h2 k (by omega) i hi).2 (by omega)
      have e1 : cell b k i = (colOf b i).get ⟨k, by rw [hlen, hb.1]; omega⟩ := by
        rw [← colOf_getD (i := k) (by rw [hb.1]; omega) i,
          List.getD_eq_getElem _ _ (by rw [hlen, hb.1]; omega)]
        simp [List.get_eq_getElem]
      have e2 : cell b (k + 1) i = (colOf b i).get ⟨k + 1, by rw [hlen, hb.1]; omega⟩ := by
        rw [← colOf_getD (i := k + 1) (by rw [hb.1]; omega) i,
          List.getD_eq_getElem _ _ (by rw [hlen, hb.1]; omega)]
        simp [List.get_eq_getElem]
      rw [e1, e2]
      exact heq

/-- On a game-over board, the engine reports `moved = false` in every
direction. -/
theorem applyMove_moved_false_of_gameOver {b : Board} (hb : Shape4 b)
    (hg : isGameOver b = true) (d : Direction) : (applyMove d b).moved = false := by
  obtain ⟨hrow, hcol⟩ := terminal_rows hb hg
  have hrowlen : ∀ i < 4, (b.getD i []).length = 4 := fun i hi => shape4_row hb hi
  have hcollen : ∀ i : Nat, (colOf b i).length = 4 := by
    intro i; simp [colOf, hb.1]
  cases d with
  | left =>
    show movedCheck b (moveLeftBoard b) = false
    rw [moveLeftBoard_id_of_rows ?_]
    · exact movedCheck_self b
    · intro r hr
      obtain ⟨i, hil, rfl⟩ := (mem_iff_getD ([] : List Nat)).mp hr
      rw [hb.1] at hil
      exact slideRowLeft_id_of_terminal _ (hrowlen i hil) (hrow i hil).1 (hrow i hil).2
  | right =>
    show movedCheck (b.map List.reverse) (moveLeftBoard (b.map List.reverse)) = false
    rw [moveLeftBoard_id_of_rows ?_]
    · exact movedCheck_self _
    · intro r hr
      obtain ⟨s, hs, rfl⟩ := List.mem_map.mp hr
      obtain ⟨i, hil, rfl⟩ := (mem_iff_getD ([] : List Nat)).mp hs
      rw [hb.1] at hil
      exact slideRowLeft_id_of_terminal_reverse _ (hrowlen i hil) (hrow i hil).1 (hrow i hil).2
  | up =>
    show movedCheck (transposeB b) (moveLeftBoard (transposeB b)) = false
    rw [moveLeftBoard_id_of_rows ?_]
    · exact movedCheck_self _
    · intro r hr
      rw [transposeB_eq_cols hb] at hr
      simp only [List.mem_cons, List.not_mem_nil, or_false] at hr
      rcases hr with rfl | rfl | rfl | rfl
      · exact slideRowLeft_id_of_terminal _ (hcollen 0) (hcol 0 (by omega)).1 (hcol 0 (by omega)).2
      · exact slideRowLeft_id_of_terminal _ (hcollen 1) (hcol 1 (by omega)).1 (hcol 1 (by omega)).2
      · exact slideRowLeft_id_of_terminal _ (hcollen 2) (hcol 2 (by omega)).1 (hcol 2 (by omega)).2
      · exact slideRowLeft_id_of_terminal _ (hcollen 3) (hcol 3 (by omega)).1 (hcol 3 (by omega)).2
  | down =>
    show movedCheck ((transposeB b).map List.reverse)
      (moveLeftBoard ((transposeB b).map List.reverse)) = false
    rw [moveLeftBoard_id_of_rows ?_]
    · exact movedCheck_self _
    · intro r hr
      obtain ⟨s, hs, rfl⟩ := List.mem_map.mp hr
      rw [transposeB_eq_cols hb] at hs
      simp only [List.mem_cons, List.not_mem_nil, or_false] at hs
      rcases hs with rfl | rfl | rfl | rfl
      · exact slideRowLeft_id_of_terminal_reverse _ (hcollen 0) (hcol 0 (by omega)).1 (hcol 0 (by omega)).2
      · exact slideRowLeft_id_of_terminal_reverse _ (hcollen 1) (hcol 1 (by omega)).1 (hcol 1 (by omega)).2
      · exact slideRowLeft_id_of_terminal_reverse _ (hcollen 2) (hcol 2 (by omega)).1 (hcol 2 (by omega)).2
      · exact slideRowLeft_id_of_terminal_reverse _ (hcollen 3) (hcol 3 (by omega)).1 (hcol 3 (by omega)).2

/-! ### Tracking the 2048 win check -/

theorem hitStep_mem (t : List Nat) : ∀ a, hitStep a t = true → 2048 ∈ mergeStep a t := by
  induction t with
  | nil =>
    intro a h
    rw [hitStep] at h
    cases h
  | cons b t ih =>
    intro a h
    by_cases hab : a = b
    · rw [hitStep, if_pos hab] at h
      rw [mergeStep, if_pos hab]
      rcases Bool.or_eq_true_iff.mp h with h | h
      · have : a + a = 2048 := of_decide_eq_true h
        exact this ▸ List.mem_cons_self _ _
      · exact List.mem_cons_of_mem _ (ih 0 h)
    · rw [hitStep, if_neg hab] at h
      rw [mergeStep, if_neg hab]
      exact List.mem_cons_of_mem _ (ih b h)

theorem hitLoop_mem_slideRow (l : List Nat) (h : hitLoop (filterNZ l) = true) :
    2048 ∈ slideRowLeft l := by
  have hmem : 2048 ∈ filterNZ (mergeLoop (filterNZ l)) := by
    rcases hd : filterNZ l with _ | ⟨a, t⟩
    · rw [hd, hitLoop] at h
      cases h
    · rw [hd] at h
      refine mem_filterNZ.mpr ⟨?_, by omega⟩
      exact hitStep_mem t a h
  rw [slideRowLeft, padTo]
  exact List.mem_append_left _ hmem

theorem cell_of_mem {X : Board} (hX : Shape4 X) {r : List Nat} (hr : r ∈ X)
    {v : Nat} (hv : v ∈ r) : ∃ i < 4, ∃ j < 4, cell X i j = v := by
  obtain ⟨i, hil, hieq⟩ := (mem_iff_getD ([] : List Nat)).mp hr
  subst hieq
  obtain ⟨j, hjl, hjeq⟩ := (mem_iff_getD 0).mp hv
  have hi4 : i < 4 := by rw [hX.1] at hil; exact hil
  have hj4 : j < 4 := by rw [shape4_row hX hi4] at hjl; exact hjl
  exact ⟨i, hi4, j, hj4, hjeq⟩

/-! ### `setCell` and the empty-cell list -/

theorem getD_set_self {α : Type} (l : List α) (i : Nat) (h : i < l.length)
    (a d : α) : (l.set i a).getD i d = a := by
  rw [List.getD_eq_getElem _ _ (by simpa using h)]
  exact List.getElem_set_self (by simpa using h)

theorem getD_set_ne {α : Type} (l : List α) {i j : Nat} (hne : i ≠ j)
    (a : α) (d : α) : (l.set i a).getD j d = l.getD j d := by
  rcases Nat.lt_or_ge j l.length with h | h
  · rw [List.getD_eq_getElem _ _ (by simpa using h), List.getD_eq_getElem _ _ h]
    exact List.getElem_set_ne hne _
  · rw [List.getD_eq_default _ _ (by simpa using h), List.getD_eq_default _ _ h]

theorem cell_setCell_self {b : Board} (hb : Shape4 b) {i j : Nat}
    (hi : i < 4) (hj : j < 4) (v : Nat) : cell (setCell b i j v) i j = v := by
  rw [setCell, cell, getD_set_self _ _ (by rw [hb.1]; exact hi),
    getD_set_self _ _ (by rw [shape4_row hb hi]; exact hj)]

theorem cell_setCell_ne {b : Board} {i j : Nat} (i' j' : Nat)
    (hne : (i', j') ≠ (i, j)) (v : Nat) :
    cell (setCell b i j v) i' j' = cell b i' j' := by
  by_cases hii : i = i'
  · subst hii
    have hjj : j ≠ j' := fun h => hne (by rw [h])
    rcases Nat.lt_or_ge i b.length with hib | hib
    · rw [setCell, cell, getD_set_self _ _ hib, getD_set_ne _ hjj, cell]
    · rw [setCell, List.set_eq_of_length_le hib]
  · rw [setCell, cell, getD_set_ne _ hii, cell]

theorem mem_emptyCellsOf {b : Board} {p : Nat × Nat} :
    p ∈ emptyCellsOf b ↔ p.1 < 4 ∧ p.2 < 4 ∧ cell b p.1 p.2 = 0 := by
  obtain ⟨i, j⟩ := p
  simp only [emptyCellsOf, GRID_SIZE, List.mem_flatMap, List.mem_map,
    List.mem_filter, List.mem_range]
  constructor
  · rintro ⟨i', hi', j', ⟨hj', hc⟩, heq⟩
    obtain ⟨rfl, rfl⟩ := Prod.mk.injEq .. ▸ heq
    exact ⟨hi', hj', by simpa using hc⟩
  · rintro ⟨hi, hj, hc⟩
    exact ⟨i, hi, j, ⟨hj, by simpa using hc⟩, rfl⟩

theorem emptyCellsOf_nil_of_full {b : Board}
    (h : ∀ i < 4, ∀ j < 4, cell b i j ≠ 0) : emptyCellsOf b = [] := by
  rcases he : emptyCellsOf b with _ | ⟨p, t⟩
  · rfl
  · have hp : p ∈ emptyCellsOf b := by rw [he]; exact List.mem_cons_self p t
    obtain ⟨h1, h2, h3⟩ := mem_emptyCellsOf.mp hp
    exact absurd h3 (h p.1 h1 p.2 h2)

theorem addRandomTile_full {b : Board} (h : emptyCellsOf b = []) (k : Nat)
    (isTwo : Bool) : addRandomTile b k isTwo = b := by
  simp only [addRandomTile]
  rw [if_neg (by rw [h]; simp)]

theorem addRandomTile_pos {b : Board} (h : 0 < (emptyCellsOf b).length)
    (k : Nat) (isTwo : Bool) :
    addRandomTile b k isTwo
      = setCell b ((emptyCellsOf b).getD k (0, 0)).1
          ((emptyCellsOf b).getD k (0, 0)).2 (if isTwo then 2 else 4) := by
  simp only [addRandomTile]
  rw [if_pos h]

/-! ### Field equations for `applyMove` -/

theorem applyMove_left_newBoard (b : Board) :
    (applyMove .left b).newBoard = moveLeftBoard b := rfl

theorem applyMove_left_score (b : Board) :
    (applyMove .left b).scoreIncrease = (b.map rowScore).sum := rfl

theorem applyMove_left_moved (b : Board) :
    (applyMove .left b).moved = movedCheck b (moveLeftBoard b) := rfl

theorem applyMove_right_newBoard (b : Board) :
    (applyMove .right b).newBoard
      = (moveLeftBoard (b.map List.reverse)).map List.reverse := rfl

theorem applyMove_right_score (b : Board) :
    (applyMove .right b).scoreIncrease = ((b.map List.reverse).map rowScore).sum := rfl

theorem applyMove_right_moved (b : Board) :
    (applyMove .right b).moved
      = movedCheck (b.map List.reverse) (moveLeftBoard (b.map List.reverse)) := rfl

theorem applyMove_up_newBoard (b : Board) :
    (applyMove .up b).newBoard = transposeB (moveLeftBoard (transposeB b)) := rfl

theorem applyMove_up_score (b : Board) :
    (applyMove .up b).scoreIncrease = ((transposeB b).map rowScore).sum := rfl

theorem applyMove_up_moved (b : Board) :
    (applyMove .up b).moved
      = movedCheck (transposeB b) (moveLeftBoard (transposeB b)) := rfl

theorem applyMove_down_newBoard (b : Board) :
    (applyMove .down b).newBoard
      = transposeB ((moveLeftBoard ((transposeB b).map List.reverse)).map
          List.reverse) := rfl

theorem applyMove_down_score (b : Board) :
    (applyMove .down b).scoreIncrease
      = (((transposeB b).map List.reverse).map rowScore).sum := rfl

theorem applyMove_down_moved (b : Board) :
    (applyMove .down b).moved
      = movedCheck ((transposeB b).map List.reverse)
          (moveLeftBoard ((transposeB b).map List.reverse)) := rfl

/-! ### Claim C1 -/

/-- Claim C1: for every 4×4 grid and every direction, `applyMove` transforms
each line independently by the spec's pipeline — remove zeros toward the
leading edge, merge adjacent equal pairs once (no chain merging), re-compact,
pad with zeros at the trailing edge — and `scoreIncrease` is the sum over all
lines of the merged values. -/
theorem claim_C1_per_line_refinement (b : Board) (hb : Shape4 b) (d : Direction) :
    (∀ i < 4, lineLE d (applyMove d b).newBoard i = specLine (lineLE d b i))
    ∧ (applyMove d b).scoreIncrease
      = ((List.range 4).map fun i => specScorePass (filterNZ (lineLE d b i))).sum := by
  cases d with
  | left => exact lines_spec_left hb
  | right => exact lines_spec_right hb
  | up => exact lines_spec_up hb
  | down => exact lines_spec_down hb

/-- Witness for C1 at a concrete grid and direction. -/
theorem claim_C1_per_line_refinement_witness :
    Shape4 [[2, 2, 4, 4], [2, 0, 2, 0], [0, 0, 0, 0], [8, 8, 8, 8]]
    ∧ ((∀ i < 4,
        lineLE .left (applyMove .left
            [[2, 2, 4, 4], [2, 0, 2, 0], [0, 0, 0, 0], [8, 8, 8, 8]]).newBoard i
          = specLine (lineLE .left
              [[2, 2, 4, 4], [2, 0, 2, 0], [0, 0, 0, 0], [8, 8, 8, 8]] i))
      ∧ (applyMove .left
            [[2, 2, 4, 4], [2, 0, 2, 0], [0, 0, 0, 0], [8, 8, 8, 8]]).scoreIncrease
          = ((List.range 4).map fun i => specScorePass (filterNZ (lineLE .left
              [[2, 2, 4, 4], [2, 0, 2, 0], [0, 0, 0, 0], [8, 8, 8, 8]] i))).sum) :=
  ⟨by decide, claim_C1_per_line_refinement _ (by decide) .left⟩

/-! ### Claim C2 -/

/-- Claim C2 counterexample: applying `applyMove` twice in the same direction
is not always idempotent — on `[[2,2,4,0],…]` the first Left move produces
`[4,4,0,0]` and the second Left move merges again, reporting `moved = true`. -/
theorem claim_C2_counterexample :
    ¬ ((applyMove .left (applyMove .left
        [[2, 2, 4, 0], [0, 0, 0, 0], [0, 0, 0, 0], [0, 0, 0, 0]]).newBoard).moved
      = false) := by decide

/-- Claim C2 amended: a second `applyMove` in the same direction changes the
grid only by performing a merge; whenever the second call gains no score, it
reports `moved = false` (compaction alone is idempotent). -/
theorem claim_C2_amended (b : Board) (hb : Shape4 b) (d : Direction)
    (hs : (applyMove d (applyMove d b).newBoard).scoreIncrease = 0) :
    (applyMove d (applyMove d b).newBoard).moved = false := by
  cases d with
  | left =>
    rw [applyMove_left_score, applyMove_left_newBoard] at hs
    rw [applyMove_left_moved, applyMove_left_newBoard,
      moveLeftBoard_fixed_of_outputs (rows_are_outputs _) hs]
    exact movedCheck_self _
  | right =>
    rw [applyMove_right_score, applyMove_right_newBoard, map_reverse_reverse] at hs
    rw [applyMove_right_moved, applyMove_right_newBoard, map_reverse_reverse,
      moveLeftBoard_fixed_of_outputs (rows_are_outputs _) hs]
    exact movedCheck_self _
  | up =>
    have hX : Shape4 (moveLeftBoard (transposeB b)) :=
      shape4_moveLeftBoard (shape4_transposeB hb)
    rw [applyMove_up_score, applyMove_up_newBoard, transposeB_transposeB hX] at hs
    rw [applyMove_up_moved, applyMove_up_newBoard, transposeB_transposeB hX,
      moveLeftBoard_fixed_of_outputs (rows_are_outputs _) hs]
    exact movedCheck_self _
  | down =>
    have hY0 : Shape4 ((moveLeftBoard ((transposeB b).map List.reverse)).map
        List.reverse) :=
      shape4_map_reverse (shape4_moveLeftBoard (shape4_map_reverse
        (shape4_transposeB hb)))
    rw [applyMove_down_score, applyMove_down_newBoard, transposeB_transposeB hY0,
      map_reverse_reverse] at hs
    rw [applyMove_down_moved, applyMove_down_newBoard, transposeB_transposeB hY0,
      map_reverse_reverse, moveLeftBoard_fixed_of_outputs (rows_are_outputs _) hs]
    exact movedCheck_self _

/-- Witness for the amended C2 at a concrete grid. -/
theorem claim_C2_amended_witness :
    (Shape4 [[2, 4, 8, 0], [0, 0, 0, 0], [0, 0, 0, 0], [0, 0, 0, 0]]
      ∧ (applyMove .left (applyMove .left
          [[2, 4, 8, 0], [0, 0, 0, 0], [0, 0, 0, 0], [0, 0, 0, 0]]).newBoard).scoreIncrease
        = 0)
    ∧ (applyMove .left (applyMove .left
        [[2, 4, 8, 0], [0, 0, 0, 0], [0, 0, 0, 0], [0, 0, 0, 0]]).newBoard).moved
      = false :=
  ⟨⟨by decide, by decide⟩, claim_C2_amended _ (by decide) .left (by decide)⟩

/-! ### Claim C3 -/

/-- Claim C3 counterexample: the tile sum after a move does not equal the tile
sum before plus `scoreIncrease` — merging `[2,2]` keeps the sum at 4 while the
score delta is 4. -/
theorem claim_C3_counterexample :
    totalSum (applyMove .left
        [[2, 2, 0, 0], [0, 0, 0, 0], [0, 0, 0, 0], [0, 0, 0, 0]]).newBoard
      ≠ totalSum [[2, 2, 0, 0], [0, 0, 0, 0], [0, 0, 0, 0], [0, 0, 0, 0]]
        + (applyMove .left
            [[2, 2, 0, 0], [0, 0, 0, 0], [0, 0, 0, 0], [0, 0, 0, 0]]).scoreIncrease := by
  decide

/-- The sum of all tile values is invariant under every move: a merge replaces
two equal tiles by their double.  Used by the amended C3 and by C9. -/
theorem totalSum_applyMove {b : Board} (hb : Shape4 b) (d : Direction) :
    totalSum (applyMove d b).newBoard = totalSum b := by
  cases d with
  | left => exact totalSum_moveLeftBoard b
  | right =>
    show totalSum ((moveLeftBoard (b.map List.reverse)).map List.reverse) = totalSum b
    rw [totalSum_map_reverse, totalSum_moveLeftBoard, totalSum_map_reverse]
  | up =>
    show totalSum (transposeB (moveLeftBoard (transposeB b))) = totalSum b
    rw [totalSum_transposeB (shape4_moveLeftBoard (shape4_transposeB hb)),
      totalSum_moveLeftBoard, totalSum_transposeB hb]
  | down =>
    show totalSum (transposeB ((moveLeftBoard ((transposeB b).map List.reverse)).map
      List.reverse)) = totalSum b
    rw [totalSum_transposeB (shape4_map_reverse (shape4_moveLeftBoard
        (shape4_map_reverse (shape4_transposeB hb)))),
      totalSum_map_reverse, totalSum_moveLeftBoard, totalSum_map_reverse,
      totalSum_transposeB hb]

/-- Claim C3 amended: the sum of all tile values in `resultingGrid` equals the
sum in the input grid exactly; `scoreIncrease` records the merge gains but is
not added to the tile sum. -/
theorem claim_C3_amended (b : Board) (hb : Shape4 b) (d : Direction) :
    totalSum (applyMove d b).newBoard = totalSum b :=
  totalSum_applyMove hb d

/-- Witness for the amended C3 at a concrete grid. -/
theorem claim_C3_amended_witness :
    Shape4 [[2, 2, 4, 4], [0, 2, 0, 2], [4, 0, 4, 0], [2, 2, 2, 2]]
    ∧ totalSum (applyMove .right
        [[2, 2, 4, 4], [0, 2, 0, 2], [4, 0, 4, 0], [2, 2, 2, 2]]).newBoard
      = totalSum [[2, 2, 4, 4], [0, 2, 0, 2], [4, 0, 4, 0], [2, 2, 2, 2]] :=
  ⟨by decide, claim_C3_amended _ (by decide) .right⟩

/-! ### Claim C4 -/

/-- Claim C4: `isGameOver` returns `false` exactly when some cell is empty or
some cell equals an orthogonally (horizontally or vertically, not diagonally)
adjacent cell, and `true` otherwise. -/
theorem claim_C4_isTerminal_contract (b : Board) :
    isGameOver b = false ↔ specMovePossible b := by
  have hbool : isGameOver b = false ↔ ¬(isGameOver b = true) := by
    cases isGameOver b <;> simp
  rw [hbool, isGameOver_iff, specMovePossible, not_and_or]
  constructor
  · rintro (h | h)
    · left
      push_neg at h
      obtain ⟨i, hi, j, hj, hc⟩ := h
      exact ⟨i, hi, j, hj, hc⟩
    · right
      push_neg at h
      obtain ⟨i, hi, j, hj, hcase⟩ := h
      by_cases hA : j < 3 → cell b i j ≠ cell b i (j + 1)
      · obtain ⟨hi3, heq⟩ := hcase hA
        exact ⟨i, hi, j, hj, i + 1, by omega, j, hj,
          Or.inr ⟨rfl, Or.inl rfl⟩, heq⟩
      · push_neg at hA
        exact ⟨i, hi, j, hj, i, hi, j + 1, by omega,
          Or.inl ⟨rfl, Or.inl rfl⟩, hA.2⟩
  · rintro (⟨i, hi, j, hj, hc⟩ | ⟨i, hi, j, hj, i', hi', j', hj', hadj, hceq⟩)
    · left
      push_neg
      exact ⟨i, hi, j, hj, hc⟩
    · right
      intro hall
      rcases hadj with ⟨heq, hj2 | hj2⟩ | ⟨heq, hi2 | hi2⟩
      · subst heq; subst hj2
        exact (hall i hi j hj).1 (by omega) hceq
      · subst heq; subst hj2
        exact (hall i hi j' hj').1 (by omega) hceq.symm
      · subst heq; subst hi2
        exact (hall i hi j hj).2 (by omega) hceq
      · subst heq; subst hi2
        exact (hall i' hi' j hj).2 (by omega) hceq.symm

/-! ### Claim C5 -/

/-- Claim C5: if `applyMove` reports `moved = true` in some direction, the
grid is not terminal; equivalently, on a game-over grid all four directions
report `moved = false`. -/
theorem claim_C5_changed_implies_not_terminal (b : Board) (hb : Shape4 b)
    (d : Direction) (h : (applyMove d b).moved = true) : isGameOver b = false := by
  cases hgo : isGameOver b
  · rfl
  · rw [applyMove_moved_false_of_gameOver hb hgo d] at h
    cases h

/-- Witness for C5 at a concrete grid and direction. -/
theorem claim_C5_changed_implies_not_terminal_witness :
    (Shape4 [[2, 2, 0, 0], [0, 0, 0, 0], [0, 0, 0, 0], [0, 0, 0, 0]]
      ∧ (applyMove .left
          [[2, 2, 0, 0], [0, 0, 0, 0], [0, 0, 0, 0], [0, 0, 0, 0]]).moved = true)
    ∧ isGameOver [[2, 2, 0, 0], [0, 0, 0, 0], [0, 0, 0, 0], [0, 0, 0, 0]] = false :=
  ⟨⟨by decide, by decide⟩,
    claim_C5_changed_implies_not_terminal _ (by decide) .left (by decide)⟩

/-! ### Claim C6 -/

/-- Claim C6: `applyMove` reports `moved = false` exactly when the resulting
grid is cell-wise identical to the input grid, in every direction. -/
theorem claim_C6_changed_iff_grid_differs (b : Board) (hb : Shape4 b)
    (d : Direction) :
    (applyMove d b).moved = false ↔ (applyMove d b).newBoard = b := by
  cases d with
  | left =>
    rw [applyMove_left_moved, applyMove_left_newBoard,
      movedCheck_false_iff_eq hb (shape4_moveLeftBoard hb)]
    exact eq_comm
  | right =>
    have hrev : Shape4 (b.map List.reverse) := shape4_map_reverse hb
    rw [applyMove_right_moved, applyMove_right_newBoard,
      movedCheck_false_iff_eq hrev (shape4_moveLeftBoard hrev)]
    constructor
    · intro h
      rw [← h, map_reverse_reverse]
    · intro h
      have h1 := congrArg (List.map List.reverse) h
      rw [map_reverse_reverse] at h1
      exact h1.symm
  | up =>
    have htb : Shape4 (transposeB b) := shape4_transposeB hb
    rw [applyMove_up_moved, applyMove_up_newBoard,
      movedCheck_false_iff_eq htb (shape4_moveLeftBoard htb)]
    constructor
    · intro h
      rw [← h, transposeB_transposeB hb]
    · intro h
      have h1 := congrArg transposeB h
      rw [transposeB_transposeB (shape4_moveLeftBoard htb)] at h1
      exact h1.symm
  | down =>
    have htb : Shape4 (transposeB b) := shape4_transposeB hb
    have hrev : Shape4 ((transposeB b).map List.reverse) := shape4_map_reverse htb
    have hM : Shape4 (moveLeftBoard ((transposeB b).map List.reverse)) :=
      shape4_moveLeftBoard hrev
    rw [applyMove_down_moved, applyMove_down_newBoard,
      movedCheck_false_iff_eq hrev hM]
    constructor
    · intro h
      rw [← h, map_reverse_reverse, transposeB_transposeB hb]
    · intro h
      have h1 := congrArg transposeB h
      rw [transposeB_transposeB (shape4_map_reverse hM)] at h1
      have h2 := congrArg (List.map List.reverse) h1
      rw [map_reverse_reverse] at h2
      exact h2.symm

/-- Witness for C6 at a concrete grid and direction. -/
theorem claim_C6_changed_iff_grid_differs_witness :
    Shape4 [[2, 4, 2, 4], [4, 2, 4, 2], [2, 4, 2, 4], [4, 2, 4, 2]]
    ∧ ((applyMove .down
        [[2, 4, 2, 4], [4, 2, 4, 2], [2, 4, 2, 4], [4, 2, 4, 2]]).moved = false
      ↔ (applyMove .down
          [[2, 4, 2, 4], [4, 2, 4, 2], [2, 4, 2, 4], [4, 2, 4, 2]]).newBoard
        = [[2, 4, 2, 4], [4, 2, 4, 2], [2, 4, 2, 4], [4, 2, 4, 2]]) :=
  ⟨by decide, claim_C6_changed_iff_grid_differs _ (by decide) .down⟩

/-! ### Claim C7 -/

/-- Claim C7 (code bug): the `highScore` initializer does not turn a corrupted
(non-numeric) stored best score into zero — `parseInt("abc")` is `NaN`
(modelled as `none`), so the session starts with a non-number best score,
contradicting the spec's requirement that it be treated as zero. -/
theorem claim_C7_corrupted_best_score_yields_nan :
    highScoreInit (some "abc") = none ∧ highScoreInit (some "abc") ≠ some 0 := by
  exact ⟨rfl, by decide⟩

/-! ### Claim C8 -/

/-- Claim C8 counterexample: the move computation is not free of session-state
effects — `moveLeft` on `[[1024,1024,0,0],…]` calls `setWon(true)`, flipping
the `won` flag even though it is not part of the returned `MoveResult`. -/
theorem claim_C8_counterexample :
    wonAfterMove .left [[1024, 1024, 0, 0], [0, 0, 0, 0], [0, 0, 0, 0], [0, 0, 0, 0]]
      false ≠ false := by decide

/-- Claim C8 amended: the move computation is deterministic and touches no
session state other than the `won` flag; that flag is only ever raised, never
cleared, and when it is raised the resulting grid contains a 2048 tile
produced by a merge. -/
theorem claim_C8_amended (b : Board) (hb : Shape4 b) (d : Direction) (w : Bool) :
    (w = true → wonAfterMove d b w = true)
    ∧ (wonAfterMove d b w = true →
        w = true ∨ ∃ i < 4, ∃ j < 4, cell (applyMove d b).newBoard i j = 2048) := by
  constructor
  · intro hw
    subst hw
    cases d <;> simp [wonAfterMove, wonAfterMoveLeft]
  · intro hwin
    cases d with
    | left =>
      rcases Bool.or_eq_true_iff.mp (show (w || (b.any fun row =>
          hitLoop (filterNZ row))) = true from hwin) with hw | hany
      · exact Or.inl hw
      · right
        obtain ⟨r, hr, hhit⟩ := List.any_eq_true.mp hany
        rw [applyMove_left_newBoard]
        exact cell_of_mem (shape4_moveLeftBoard hb)
          (List.mem_map_of_mem slideRowLeft hr) (hitLoop_mem_slideRow r hhit)
    | right =>
      have hrev : Shape4 (b.map List.reverse) := shape4_map_reverse hb
      rcases Bool.or_eq_true_iff.mp (show (w || ((b.map List.reverse).any fun row =>
          hitLoop (filterNZ row))) = true from hwin) with hw | hany
      · exact Or.inl hw
      · right
        obtain ⟨r, hr, hhit⟩ := List.any_eq_true.mp hany
        rw [applyMove_right_newBoard]
        exact cell_of_mem (shape4_map_reverse (shape4_moveLeftBoard hrev))
          (List.mem_map_of_mem List.reverse (List.mem_map_of_mem slideRowLeft hr))
          (List.mem_reverse.mpr (hitLoop_mem_slideRow r hhit))
    | up =>
      have htb : Shape4 (transposeB b) := shape4_transposeB hb
      rcases Bool.or_eq_true_iff.mp (show (w || ((transposeB b).any fun row =>
          hitLoop (filterNZ row))) = true from hwin) with hw | hany
      · exact Or.inl hw
      · right
        obtain ⟨r, hr, hhit⟩ := List.any_eq_true.mp hany
        obtain ⟨i, hi, j, hj, hc⟩ := cell_of_mem (shape4_moveLeftBoard htb)
          (List.mem_map_of_mem slideRowLeft hr) (hitLoop_mem_slideRow r hhit)
        rw [applyMove_up_newBoard]
        exact ⟨j, hj, i, hi, by
          rw [cell_transposeB (shape4_moveLeftBoard htb) hj hi]
          exact hc⟩
    | down =>
      have htb : Shape4 (transposeB b) := shape4_transposeB hb
      have hrev : Shape4 ((transposeB b).map List.reverse) := shape4_map_reverse htb
      have hY : Shape4 ((moveLeftBoard ((transposeB b).map List.reverse)).map
          List.reverse) := shape4_map_reverse (shape4_moveLeftBoard hrev)
      rcases Bool.or_eq_true_iff.mp (show (w || (((transposeB b).map List.reverse).any
          fun row => hitLoop (filterNZ row))) = true from hwin) with hw | hany
      · exact Or.inl hw
      · right
        obtain ⟨r, hr, hhit⟩ := List.any_eq_true.mp hany
        obtain ⟨i, hi, j, hj, hc⟩ := cell_of_mem hY
          (List.mem_map_of_mem List.reverse (List.mem_map_of_mem slideRowLeft hr))
          (List.mem_reverse.mpr (hitLoop_mem_slideRow r hhit))
        rw [applyMove_down_newBoard]
        exact ⟨j, hj, i, hi, by
          rw [cell_transposeB hY hj hi]
          exact hc⟩

/-- Witness for the amended C8 at a concrete grid. -/
theorem claim_C8_amended_witness :
    Shape4 [[1024, 1024, 0, 0], [0, 0, 0, 0], [0, 0, 0, 0], [0, 0, 0, 0]]
    ∧ ((false = true → wonAfterMove .left
        [[1024, 1024, 0, 0], [0, 0, 0, 0], [0, 0, 0, 0], [0, 0, 0, 0]] false = true)
      ∧ (wonAfterMove .left
          [[1024, 1024, 0, 0], [0, 0, 0, 0], [0, 0, 0, 0], [0, 0, 0, 0]] false = true →
        false = true ∨ ∃ i < 4, ∃ j < 4, cell (applyMove .left
          [[1024, 1024, 0, 0], [0, 0, 0, 0], [0, 0, 0, 0], [0, 0, 0, 0]]).newBoard i j
          = 2048)) :=
  ⟨by decide, claim_C8_amended _ (by decide) .left false⟩

/-! ### Claim C9 -/

/-- Claim C9: for every grid and every direction, the sum of all cell values
of the resulting grid equals the sum of all cell values of the input grid —
merging two equal tiles into their double conserves total tile mass, and
`scoreIncrease` is not added to the tile sum. -/
theorem claim_C9_total_sum_conserved (b : Board) (hb : Shape4 b) (d : Direction) :
    totalSum (applyMove d b).newBoard = totalSum b :=
  totalSum_applyMove hb d

/-- Witness for C9 at a concrete grid. -/
theorem claim_C9_total_sum_conserved_witness :
    Shape4 [[2, 2, 0, 0], [4, 4, 8, 8], [0, 0, 0, 0], [2, 0, 0, 2]]
    ∧ totalSum (applyMove .up
        [[2, 2, 0, 0], [4, 4, 8, 8], [0, 0, 0, 0], [2, 0, 0, 2]]).newBoard
      = totalSum [[2, 2, 0, 0], [4, 4, 8, 8], [0, 0, 0, 0], [2, 0, 0, 2]] :=
  ⟨by decide, claim_C9_total_sum_conserved _ (by decide) .up⟩

/-! ### Claim C10 -/

/-- Claim C10: on a full grid the tile spawner leaves the grid unchanged (and
does not fail, being a total function); when an empty cell exists and the
random index is in range, it writes a 2 or a 4 into exactly one previously
empty cell and leaves every other cell unchanged. -/
theorem claim_C10_addRandomTile_safety (b : Board) (hb : Shape4 b) (isTwo : Bool) :
    ((∀ i < 4, ∀ j < 4, cell b i j ≠ 0) → ∀ k, addRandomTile b k isTwo = b)
    ∧ (∀ k, k < (emptyCellsOf b).length →
        ∃ i < 4, ∃ j < 4, cell b i j = 0
          ∧ cell (addRandomTile b k isTwo) i j = (if isTwo then 2 else 4)
          ∧ ∀ i' < 4, ∀ j' < 4, (i', j') ≠ (i, j) →
              cell (addRandomTile b k isTwo) i' j' = cell b i' j') := by
  constructor
  · intro hfull k
    exact addRandomTile_full (emptyCellsOf_nil_of_full hfull) k isTwo
  · intro k hk
    have hpos : 0 < (emptyCellsOf b).length := by omega
    have hmem : (emptyCellsOf b).getD k (0, 0) ∈ emptyCellsOf b := getD_mem hk _
    obtain ⟨hi, hj, hzero⟩ := mem_emptyCellsOf.mp hmem
    refine ⟨_, hi, _, hj, hzero, ?_, ?_⟩
    · rw [addRandomTile_pos hpos k isTwo]
      exact cell_setCell_self hb hi hj _
    · intro i' hi' j' hj' hne
      rw [addRandomTile_pos hpos k isTwo]
      exact cell_setCell_ne i' j' hne _

/-- Witness for C10 at a concrete grid with an empty cell. -/
theorem claim_C10_addRandomTile_safety_witness :
    (Shape4 [[2, 4, 2, 4], [4, 0, 4, 2], [2, 4, 2, 4], [4, 2, 4, 2]]
      ∧ 0 < (emptyCellsOf [[2, 4, 2, 4], [4, 0, 4, 2], [2, 4, 2, 4], [4, 2, 4, 2]]).length)
    ∧ (∃ i < 4, ∃ j < 4,
        cell [[2, 4, 2, 4], [4, 0, 4, 2], [2, 4, 2, 4], [4, 2, 4, 2]] i j = 0
        ∧ cell (addRandomTile
            [[2, 4, 2, 4], [4, 0, 4, 2], [2, 4, 2, 4], [4, 2, 4, 2]] 0 true) i j
          = (if true then 2 else 4)
        ∧ ∀ i' < 4, ∀ j' < 4, (i', j') ≠ (i, j) →
            cell (addRandomTile
              [[2, 4, 2, 4], [4, 0, 4, 2], [2, 4, 2, 4], [4, 2, 4, 2]] 0 true) i' j'
            = cell [[2, 4, 2, 4], [4, 0, 4, 2], [2, 4, 2, 4], [4, 2, 4, 2]] i' j') :=
  ⟨⟨by decide, by decide⟩,
    (claim_C10_addRandomTile_safety _ (by decide) true).2 0 (by decide)⟩

end Game2048
